import Mathlib

/-!
Verification development for the go-check-certs TLS certificate scanner.

The embedding models main.go of the scanner: the calendar arithmetic of the
Go time package that the expiration check uses (AddDate, After, Equal, Sub,
Duration.Hours), the sunset table of deprecated signature algorithms, the
per-certificate policy evaluation in checkCert, the per-host chain traversal
with signature-based deduplication in checkVerifiedHost, the peer-list
traversal in checkUnverfiedHost, the host-line handling of queueHosts and
checkHost, and the concurrency resolution in main.

Globals of the source (the flag values, the time of day, the network dial)
are passed as explicit parameters; fmt.Errorf values are modelled as a
structured Finding carrying the data interpolated into the format string.
-/

/-- Calendar timestamp in the model of the Go time package: a date given by
year, month and day fields plus the nanosecond offset inside that day.
Fields may be out of range (for example after goAddDate); every observation
goes through toNanos, which normalises them exactly the way the Go Date
constructor does, so comparisons and subtraction agree with the source. -/
structure GoTime where
  year : Int
  month : Int
  day : Int
  nano : Int
deriving DecidableEq, Repr

/-- Proleptic Gregorian leap-year rule, as in the Go time package. -/
def isLeap (y : Int) : Bool :=
  y % 4 == 0 && (y % 100 != 0 || y % 400 == 0)

/-- Days from Jan 1 of year 0 to Jan 1 of year y (negative for earlier
years).  The Go package counts from its own absolute epoch; the constant
offset between the two epochs cancels in every comparison and difference,
which are the only observations the scanner makes. -/
def daysBeforeYear (y : Int) : Int :=
  365 * y + (y + 3) / 4 - (y + 99) / 100 + (y + 399) / 400

/-- Cumulative day count before month index 0..11 in a non-leap year,
the daysBefore table of the Go time package. -/
def daysBeforeMonth (idx : Int) : Int :=
  [0, 31, 59, 90, 120, 151, 181, 212, 243, 273, 304, 334].getD idx.toNat 0

/-- Day number of a date given as a linear month count (12 * year + month
index) and a day-of-month; both may be out of range, normalised the way the
Go Date constructor norm function does (floor division for months, plain
addition for days, one extra day after February in leap years). -/
def dateDays (months : Int) (day : Int) : Int :=
  daysBeforeYear (months / 12) + daysBeforeMonth (months % 12)
    + (if 2 ≤ months % 12 ∧ isLeap (months / 12) = true then 1 else 0)
    + (day - 1)

def dayNanos : Int := 86400000000000

/-- Absolute nanosecond count of a timestamp; the denormalised fields are
normalised here, mirroring the Go Date constructor. -/
def toNanos (t : GoTime) : Int :=
  dateDays (12 * t.year + (t.month - 1)) t.day * dayNanos + t.nano

/-- Time.AddDate of the Go time package: shift the calendar fields and let
normalisation (inside toNanos) absorb any overflow, exactly as the source
re-normalises through the Date constructor. -/
def goAddDate (t : GoTime) (years months days : Int) : GoTime :=
  { year := t.year + years, month := t.month + months,
    day := t.day + days, nano := t.nano }

/-- Time.After: strict comparison of absolute times. -/
def goAfter (t u : GoTime) : Bool :=
  decide (toNanos u < toNanos t)

/-- Time.Equal: equality of absolute times. -/
def goEqual (t u : GoTime) : Bool :=
  decide (toNanos t = toNanos u)

def maxDuration : Int := 2 ^ 63 - 1

def minDuration : Int := -(2 ^ 63)

/-- Time.Sub: nanosecond difference, saturating at the Duration bounds the
way the Go implementation returns minDuration or maxDuration on overflow. -/
def goSub (t u : GoTime) : Int :=
  if toNanos t - toNanos u < minDuration then minDuration
  else if maxDuration < toNanos t - toNanos u then maxDuration
  else toNanos t - toNanos u

def hourNanos : Int := 3600000000000

/-- The int64 conversion of Duration.Hours applied to a nanosecond count:
the Go code computes hour = d / Hour (integer division toward zero) plus a
fractional part of magnitude below one and the same sign, and the int64
conversion truncates toward zero again, so the composite is truncated
division of the nanosecond count by one hour.  (The float64 rounding inside
Hours can disturb this only for durations of months combined with
nanosecond-level proximity to an hour boundary; that corner is outside the
model.) -/
def durationHours (d : Int) : Int :=
  d.tdiv hourNanos

/-- The x509.SignatureAlgorithm enumeration (the constants of the era of
the source). -/
inductive SignatureAlgorithm where
  | UnknownSignatureAlgorithm
  | MD2WithRSA
  | MD5WithRSA
  | SHA1WithRSA
  | SHA256WithRSA
  | SHA384WithRSA
  | SHA512WithRSA
  | DSAWithSHA1
  | DSAWithSHA256
  | ECDSAWithSHA1
  | ECDSAWithSHA256
  | ECDSAWithSHA384
  | ECDSAWithSHA512
deriving DecidableEq, Repr

/-- Entry of the sunset table: human readable name and the time the
algorithm is sunset. -/
structure sigAlgSunset where
  name : String
  sunsetsAt : GoTime
deriving DecidableEq, Repr

def jan2017 : GoTime := { year := 2017, month := 1, day := 1, nano := 0 }

/-- The sunsetSigAlgs map of the source.  The MD2 and MD5 entries are built
with time.Now() evaluated when the package-level table is initialised; that
instant is the initNow parameter. -/
def sunsetSigAlgs (initNow : GoTime) :
    SignatureAlgorithm → Option sigAlgSunset
  | .MD2WithRSA => some { name := "MD2 with RSA", sunsetsAt := initNow }
  | .MD5WithRSA => some { name := "MD5 with RSA", sunsetsAt := initNow }
  | .SHA1WithRSA => some { name := "SHA1 with RSA", sunsetsAt := jan2017 }
  | .DSAWithSHA1 => some { name := "DSA with SHA1", sunsetsAt := jan2017 }
  | .ECDSAWithSHA1 => some { name := "ECDSA with SHA1", sunsetsAt := jan2017 }
  | _ => none

/-- The fields of an x509.Certificate the scanner reads.  The signature
field stands for string(cert.Signature), the deduplication key. -/
structure Certificate where
  commonName : String
  serialNumber : Nat
  notAfter : GoTime
  signatureAlgorithm : SignatureAlgorithm
  signature : String
deriving DecidableEq, Repr

/-- Placeholder only reachable through out-of-range indexing, which the
source never performs (certNum always indexes into certs). -/
def defaultCert : Certificate :=
  { commonName := "", serialNumber := 0,
    notAfter := { year := 1, month := 1, day := 1, nano := 0 },
    signatureAlgorithm := .UnknownSignatureAlgorithm, signature := "" }

/-- One fmt.Errorf value of checkCert, as the structured data interpolated
into the corresponding format string (errExpiringShortly, errExpiringSoon,
errSunsetAlg). -/
inductive Finding where
  | expiringShortly (hours : Int)
  | expiringSoon (days : Int)
  | sunsetAlg (algName : String)
deriving DecidableEq, Repr

/-- The flag values the evaluation reads (the source keeps them in
package-level flag pointers). -/
structure Policy where
  warnYears : Int
  warnMonths : Int
  warnDays : Int
  checkSigAlg : Bool
deriving DecidableEq, Repr

structure certErrors where
  commonName : String
  errs : List Finding
deriving DecidableEq, Repr

structure hostResult where
  host : String
  err : Option String
  certs : List certErrors
deriving DecidableEq, Repr

/-- checkCert of the source: evaluate one certificate of the list certs at
index certNum against the policy.  timeNow is the time.Now() taken inside
checkCert; initNow the one taken when the sunset table was built.  The index
arithmetic certNum != len(certs)-1 is carried out in Int as in Go. -/
def checkCert (p : Policy) (timeNow initNow : GoTime) (host : String)
    (certNum : Nat) (certs : List Certificate) : certErrors :=
  let cert := certs.getD certNum defaultCert
  let expErrs : List Finding :=
    if goAfter (goAddDate timeNow p.warnYears p.warnMonths p.warnDays)
        cert.notAfter then
      let expiresIn := durationHours (goSub cert.notAfter timeNow)
      if expiresIn ≤ 48 then [Finding.expiringShortly expiresIn]
      else [Finding.expiringSoon (expiresIn.tdiv 24)]
    else []
  let algErrs : List Finding :=
    match sunsetSigAlgs initNow cert.signatureAlgorithm with
    | some alg =>
      if p.checkSigAlg = true ∧ (certNum : Int) ≠ (certs.length : Int) - 1 then
        if goEqual cert.notAfter alg.sunsetsAt = true
            ∨ goAfter cert.notAfter alg.sunsetsAt = true then
          [Finding.sunsetAlg alg.name]
        else []
      else []
    | none => []
  { commonName := cert.commonName, errs := expErrs ++ algErrs }

/-- Inner loop of checkVerifiedHost: range over (certNum, cert) pairs of one
chain, skipping a signature already in checkedCerts and otherwise marking it
and appending checkCert host certNum chain. -/
def checkChainLoop (p : Policy) (timeNow initNow : GoTime) (host : String)
    (chain : List Certificate) :
    List (Nat × Certificate) → List String → List String × List certErrors
  | [], seen => (seen, [])
  | (certNum, cert) :: rest, seen =>
    if cert.signature ∈ seen then
      checkChainLoop p timeNow initNow host chain rest seen
    else
      let r := checkChainLoop p timeNow initNow host chain rest
        (cert.signature :: seen)
      (r.1, checkCert p timeNow initNow host certNum chain :: r.2)

/-- Outer loop of checkVerifiedHost over the verified chains, threading the
checkedCerts set across chains. -/
def checkChainsLoop (p : Policy) (timeNow initNow : GoTime) (host : String) :
    List (List Certificate) → List String → List String × List certErrors
  | [], seen => (seen, [])
  | chain :: more, seen =>
    let r1 := checkChainLoop p timeNow initNow host chain chain.enum seen
    let r2 := checkChainsLoop p timeNow initNow host more r1.1
    (r2.1, r1.2 ++ r2.2)

/-- checkVerifiedHost of the source.  The network dial is injected: an
error value when tls.Dial fails, otherwise the VerifiedChains of the
connection state. -/
def checkVerifiedHost (p : Policy) (timeNow initNow : GoTime) (host : String)
    (dial : Except String (List (List Certificate))) : hostResult :=
  match dial with
  | .error e => { host := host, err := some e, certs := [] }
  | .ok chains =>
    { host := host, err := none,
      certs := (checkChainsLoop p timeNow initNow host chains []).2 }

/-- checkUnverfiedHost of the source (name as spelled there): on a
successful insecure dial, range over the indices of PeerCertificates and
append checkCert for every index, with no deduplication. -/
def checkUnverfiedHost (p : Policy) (timeNow initNow : GoTime) (host : String)
    (dial : Except String (List Certificate)) : hostResult :=
  match dial with
  | .error e => { host := host, err := some e, certs := [] }
  | .ok certs =>
    { host := host, err := none,
      certs := (List.range certs.length).map
        (fun certNum => checkCert p timeNow initNow host certNum certs) }

/-- unicode.IsSpace of the Go standard library (the White_Space property),
used by strings.TrimSpace. -/
def goIsSpace (c : Char) : Bool :=
  c == ' ' || c == '\t' || c == '\n' || c.toNat == 11 || c.toNat == 12
    || c == '\r' || c.toNat == 0x85 || c.toNat == 0xa0
    || c.toNat == 0x1680 || (0x2000 ≤ c.toNat && c.toNat ≤ 0x200a)
    || c.toNat == 0x2028 || c.toNat == 0x2029 || c.toNat == 0x202f
    || c.toNat == 0x205f || c.toNat == 0x3000

/-- strings.TrimSpace: drop leading and trailing white space.  Lines are
modelled as char lists; the byte-level tests of the source ("#" and the
two-byte "i " slice) coincide with the char-level ones because the bytes
involved are ASCII and UTF-8 continuation bytes are never ASCII. -/
def trimSpace (s : List Char) : List Char :=
  ((s.dropWhile goIsSpace).reverse.dropWhile goIsSpace).reverse

/-- Per-line filtering of queueHosts: trim, then skip the line when it is
empty or its first byte is the comment mark. -/
def parseHostLine (line : List Char) : Option (List Char) :=
  let host := trimSpace line
  if host.length = 0 ∨ host.headD ' ' = '#' then none else some host

inductive VerificationMode where
  | Verified
  | InsecureAccepted
deriving DecidableEq, Repr

/-- Dispatch of checkHost: a host string of length at least two whose first
two bytes are the insecure marker goes to checkUnverfiedHost with the
remainder, anything else to checkVerifiedHost whole. -/
def checkHostMode (host : List Char) : VerificationMode × List Char :=
  if 2 ≤ host.length ∧ host.take 2 = ['i', ' '] then
    (VerificationMode.InsecureAccepted, host.drop 2)
  else
    (VerificationMode.Verified, host)

/-- Composite of the queueHosts line filter and the checkHost dispatch: the
target descriptor one input line produces, when any. -/
def parseTarget (line : List Char) : Option (VerificationMode × List Char) :=
  (parseHostLine line).map checkHostMode

def defaultConcurrency : Int := 8

/-- Resolution of the concurrency flag in main: a negative value is
replaced by the default, anything else kept. -/
def resolveConcurrency (c : Int) : Int :=
  if c < 0 then defaultConcurrency else c

/-- Spec-side deduplicator, modelled from the wording of the Chain
Deduplicator section of the spec: scan a list keeping the first occurrence
of every key, also returning the set of keys seen.  It is the comparison
point for the refinement proof about checkVerifiedHost, not a translation
of the source loops. -/
def dedupScan {α : Type} (key : α → String) :
    List α → List String → List String × List α
  | [], seen => (seen, [])
  | x :: xs, seen =>
    if key x ∈ seen then dedupScan key xs seen
    else
      let r := dedupScan key xs (key x :: seen)
      (r.1, x :: r.2)

/-- All (position, chain) occurrences of the verified chain set, in
traversal order: chains in the order supplied, inside a chain leaf first. -/
def chainOccurrences (chains : List (List Certificate)) :
    List (Nat × List Certificate) :=
  chains.flatMap (fun chain => chain.enum.map (fun pr => (pr.1, chain)))

/-- Signature bytes of an occurrence. -/
def occurrenceSig (o : Nat × List Certificate) : String :=
  (o.2.getD o.1 defaultCert).signature

/-- Number of distinct signature-bytes values among all certificates of the
chain set. -/
def distinctSignatureCount (chains : List (List Certificate)) : Nat :=
  ((chains.flatMap (fun chain => chain)).map Certificate.signature).toFinset.card

/-- Expiration findings only (the sunset finding filtered out). -/
def Finding.isExpiration : Finding → Bool
  | .sunsetAlg _ => false
  | _ => true

/-- Whether a findings list contains a sunset-algorithm finding. -/
def hasSunsetFinding (l : List Finding) : Bool :=
  l.any (fun f => match f with | .sunsetAlg _ => true | _ => false)

/-- Sample instant used by the concrete evaluations below. -/
def sampleTime : GoTime := { year := 2020, month := 1, day := 1, nano := 0 }

/-- The resolved default policy of main: all warning flags zero collapses
to warnDays = 30, with the signature check enabled. -/
def samplePolicy : Policy :=
  { warnYears := 0, warnMonths := 0, warnDays := 30, checkSigAlg := true }

/-- A healthy certificate, months away from expiry. -/
def sampleCert : Certificate :=
  { commonName := "example", serialNumber := 1,
    notAfter := { year := 2020, month := 6, day := 1, nano := 0 },
    signatureAlgorithm := .SHA256WithRSA, signature := "sigA" }

/-- A SHA1 certificate expiring after the 2017 sunset date. -/
def sampleCertSha1 : Certificate :=
  { commonName := "inter", serialNumber := 2,
    notAfter := { year := 2018, month := 1, day := 1, nano := 0 },
    signatureAlgorithm := .SHA1WithRSA, signature := "sigB" }

/-- A certificate that expired thirty minutes before sampleTime. -/
def expiredCert : Certificate :=
  { commonName := "past", serialNumber := 3,
    notAfter := { year := 2019, month := 12, day := 31,
                  nano := 23 * 3600000000000 + 1800000000000 },
    signatureAlgorithm := .SHA256WithRSA, signature := "sigC" }

/-!
Helper lemmas: calendar arithmetic of the model, the characterisation of
the expiration branch of checkCert, and the refinement of the chain loops
by the spec-side deduplicator.
-/

theorem daysBeforeYear_succ (y : Int) :
    daysBeforeYear (y + 1)
      = daysBeforeYear y + 365 + (if isLeap y = true then 1 else 0) := by
  have hiff : isLeap y = true
      ↔ (y % 4 = 0 ∧ (¬ y % 100 = 0 ∨ y % 400 = 0)) := by
    simp [isLeap]
  simp only [daysBeforeYear]
  split
  · rename_i h
    rw [hiff] at h
    omega
  · rename_i h
    rw [hiff] at h
    push_neg at h
    omega

theorem dateDays_decomp (y r d : Int) (h0 : 0 ≤ r) (h1 : r < 12) :
    dateDays (12 * y + r) d
      = daysBeforeYear y + daysBeforeMonth r
        + (if 2 ≤ r ∧ isLeap y = true then 1 else 0) + (d - 1) := by
  have e1 : (12 * y + r) / 12 = y := by omega
  have e2 : (12 * y + r) % 12 = r := by omega
  simp only [dateDays, e1, e2]

theorem dateDays_step (y r d : Int) (h0 : 0 ≤ r) (h1 : r < 12) :
    dateDays (12 * y + r) d + 28 ≤ dateDays (12 * y + (r + 1)) d := by
  by_cases h11 : r = 11
  · subst h11
    have e : 12 * y + (11 + 1) = 12 * (y + 1) + 0 := by ring
    rw [e, dateDays_decomp y 11 d (by omega) (by omega),
      dateDays_decomp (y + 1) 0 d (by omega) (by omega),
      daysBeforeYear_succ y]
    by_cases hl : isLeap y = true <;>
      simp [hl, daysBeforeMonth] <;> omega
  · have h1' : r + 1 < 12 := by omega
    rw [dateDays_decomp y r d h0 h1,
      dateDays_decomp y (r + 1) d (by omega) h1']
    by_cases hl : isLeap y = true <;>
      [simp only [hl, and_true]; simp only [hl, and_false, if_false]] <;>
      interval_cases r <;> simp [daysBeforeMonth] <;> omega

theorem dateDays_succ_ge (L d : Int) :
    dateDays L d + 28 ≤ dateDays (L + 1) d := by
  have h0 : 0 ≤ L % 12 := by omega
  have h1 : L % 12 < 12 := by omega
  have hstep := dateDays_step (L / 12) (L % 12) d h0 h1
  have e1 : 12 * (L / 12) + L % 12 = L := by omega
  have e2 : 12 * (L / 12) + (L % 12 + 1) = L + 1 := by omega
  rw [e1, e2] at hstep
  exact hstep

theorem dateDays_add_nat_ge (L d : Int) (k : Nat) :
    dateDays L d ≤ dateDays (L + k) d := by
  induction k with
  | zero => simp
  | succ n ih =>
    have h := dateDays_succ_ge (L + n) d
    have e : (L + n) + 1 = L + (n + 1 : Nat) := by push_cast; ring
    rw [e] at h
    omega

theorem dateDays_day_add (L a b : Int) :
    dateDays L (a + b) = dateDays L a + b := by
  simp only [dateDays]
  ring

theorem toNanos_addDate_ge (t : GoTime) (y m d : Int)
    (hy : 0 ≤ y) (hm : 0 ≤ m) (hd : 0 ≤ d) :
    toNanos t ≤ toNanos (goAddDate t y m d) := by
  simp only [toNanos, goAddDate]
  have e1 : 12 * (t.year + y) + (t.month + m - 1)
      = (12 * t.year + (t.month - 1)) + (12 * y + m) := by ring
  rw [e1]
  obtain ⟨k, hk⟩ := Int.le.dest (show (0 : Int) ≤ 12 * y + m by omega)
  rw [show (12 * t.year + (t.month - 1)) + (12 * y + m)
      = (12 * t.year + (t.month - 1)) + k by omega]
  rw [show t.day + d = t.day + d from rfl, dateDays_day_add]
  have hmono := dateDays_add_nat_ge (12 * t.year + (t.month - 1)) t.day k
  have hpos : (0 : Int) < dayNanos := by norm_num [dayNanos]
  nlinarith [hmono, hd, hpos]

theorem checkCert_expiration_filter (p : Policy) (timeNow initNow : GoTime)
    (host : String) (certNum : Nat) (certs : List Certificate) :
    ((checkCert p timeNow initNow host certNum certs).errs.filter
        Finding.isExpiration)
      = (if goAfter (goAddDate timeNow p.warnYears p.warnMonths p.warnDays)
            (certs.getD certNum defaultCert).notAfter then
          if durationHours
              (goSub (certs.getD certNum defaultCert).notAfter timeNow) ≤ 48 then
            [Finding.expiringShortly (durationHours
              (goSub (certs.getD certNum defaultCert).notAfter timeNow))]
          else
            [Finding.expiringSoon ((durationHours
              (goSub (certs.getD certNum defaultCert).notAfter timeNow)).tdiv 24)]
        else []) := by
  simp only [checkCert, List.filter_append]
  repeat' split
  all_goals simp [Finding.isExpiration]

theorem dedupScan_append {α : Type} (key : α → String) (xs ys : List α)
    (seen : List String) :
    dedupScan key (xs ++ ys) seen
      = ((dedupScan key ys (dedupScan key xs seen).1).1,
         (dedupScan key xs seen).2
           ++ (dedupScan key ys (dedupScan key xs seen).1).2) := by
  induction xs generalizing seen with
  | nil => simp [dedupScan]
  | cons x xs ih =>
    simp only [List.cons_append, dedupScan]
    split
    · exact ih _
    · simp [ih _]

theorem checkChainLoop_eq_dedupScan (p : Policy) (timeNow initNow : GoTime)
    (host : String) (chain : List Certificate)
    (pairs : List (Nat × Certificate)) (seen : List String)
    (hp : ∀ pr ∈ pairs, chain.getD pr.1 defaultCert = pr.2) :
    checkChainLoop p timeNow initNow host chain pairs seen
      = ((dedupScan occurrenceSig (pairs.map (fun pr => (pr.1, chain))) seen).1,
         ((dedupScan occurrenceSig (pairs.map (fun pr => (pr.1, chain)))
            seen).2).map
           (fun o => checkCert p timeNow initNow host o.1 o.2)) := by
  induction pairs generalizing seen with
  | nil => simp [checkChainLoop, dedupScan]
  | cons pr rest ih =>
    obtain ⟨certNum, cert⟩ := pr
    have hc : chain.getD certNum defaultCert = cert :=
      hp (certNum, cert) (List.mem_cons_self _ _)
    have hrest : ∀ q ∈ rest, chain.getD q.1 defaultCert = q.2 :=
      fun q hq => hp q (by simp [hq])
    have hsig : occurrenceSig (certNum, chain) = cert.signature := by
      show (chain.getD certNum defaultCert).signature = cert.signature
      rw [hc]
    simp only [checkChainLoop, List.map_cons, dedupScan, hsig]
    by_cases hmem : cert.signature ∈ seen
    · simp [hmem, ih _ hrest]
    · simp [hmem, ih _ hrest]

theorem checkChainsLoop_eq_dedupScan (p : Policy) (timeNow initNow : GoTime)
    (host : String) (chains : List (List Certificate)) (seen : List String) :
    checkChainsLoop p timeNow initNow host chains seen
      = ((dedupScan occurrenceSig (chainOccurrences chains) seen).1,
         (dedupScan occurrenceSig (chainOccurrences chains) seen).2.map
           (fun o => checkCert p timeNow initNow host o.1 o.2)) := by
  induction chains generalizing seen with
  | nil => simp [checkChainsLoop, chainOccurrences, dedupScan]
  | cons chain more ih =>
    have hp : ∀ pr ∈ chain.enum, chain.getD pr.1 defaultCert = pr.2 := by
      intro pr hpr
      have h2 := List.mem_enum_iff_getElem?.mp hpr
      simp [List.getD_eq_getElem?_getD, h2]
    simp only [checkChainsLoop, chainOccurrences, List.flatMap_cons]
    rw [show (chain.enum.map (fun pr => (pr.1, chain))
        ++ more.flatMap (fun c => c.enum.map (fun pr => (pr.1, c))))
      = (chain.enum.map (fun pr => (pr.1, chain)) ++ chainOccurrences more)
      from rfl]
    rw [dedupScan_append]
    rw [checkChainLoop_eq_dedupScan p timeNow initNow host chain chain.enum seen hp]
    rw [ih]
    simp [List.map_append]

theorem dedupScan_mem_map_key {α : Type} (key : α → String) (xs : List α)
    (seen : List String) (a : String) :
    a ∈ (dedupScan key xs seen).2.map key ↔ a ∈ xs.map key ∧ a ∉ seen := by
  induction xs generalizing seen with
  | nil => simp [dedupScan]
  | cons x xs ih =>
    simp only [dedupScan, List.map_cons]
    by_cases hmem : key x ∈ seen
    · rw [if_pos hmem]
      rw [ih]
      constructor
      · rintro ⟨h1, h2⟩
        exact ⟨List.mem_cons_of_mem _ h1, h2⟩
      · rintro ⟨h1, h2⟩
        rcases List.mem_cons.mp h1 with h | h
        · exact absurd (h ▸ hmem) h2
        · exact ⟨h, h2⟩
    · rw [if_neg hmem]
      simp only [List.map_cons, List.mem_cons]
      rw [ih]
      constructor
      · rintro (rfl | ⟨h1, h2⟩)
        · exact ⟨Or.inl rfl, hmem⟩
        · refine ⟨Or.inr h1, fun hs => h2 (List.mem_cons_of_mem _ hs)⟩
      · rintro ⟨h1 | h1, h2⟩
        · exact Or.inl h1
        · by_cases hax : a = key x
          · exact Or.inl hax
          · exact Or.inr ⟨h1, by simp [List.mem_cons, hax, h2]⟩

theorem dedupScan_nodup_keys {α : Type} (key : α → String) (xs : List α)
    (seen : List String) :
    ((dedupScan key xs seen).2.map key).Nodup := by
  induction xs generalizing seen with
  | nil => simp [dedupScan]
  | cons x xs ih =>
    simp only [dedupScan]
    by_cases hmem : key x ∈ seen
    · rw [if_pos hmem]
      exact ih _
    · rw [if_neg hmem]
      simp only [List.map_cons, List.nodup_cons]
      refine ⟨?_, ih _⟩
      intro hin
      have := (dedupScan_mem_map_key key xs (key x :: seen) (key x)).mp hin
      simp at this

theorem dedupScan_length_card {α : Type} (key : α → String) (xs : List α) :
    (dedupScan key xs []).2.length = (xs.map key).toFinset.card := by
  have h1 := dedupScan_nodup_keys key xs []
  have h2 : ((dedupScan key xs []).2.map key).toFinset = (xs.map key).toFinset := by
    ext a
    simp only [List.mem_toFinset]
    rw [dedupScan_mem_map_key]
    simp
  calc (dedupScan key xs []).2.length
      = ((dedupScan key xs []).2.map key).length := (List.length_map _ _).symm
    _ = ((dedupScan key xs []).2.map key).toFinset.card :=
        (List.toFinset_card_of_nodup h1).symm
    _ = (xs.map key).toFinset.card := by rw [h2]

theorem chainOccurrences_keys_toFinset (chains : List (List Certificate)) :
    ((chainOccurrences chains).map occurrenceSig).toFinset
      = ((chains.flatMap (fun chain => chain)).map
          Certificate.signature).toFinset := by
  ext a
  simp only [List.mem_toFinset, List.mem_map, chainOccurrences, List.mem_flatMap]
  constructor
  · rintro ⟨o, ⟨chain, hchain, ho⟩, rfl⟩
    obtain ⟨pr, hpr, rfl⟩ := ho
    have h2 := List.mem_enum_iff_getElem?.mp hpr
    have hget : chain.getD pr.1 defaultCert = pr.2 := by
      simp [List.getD_eq_getElem?_getD, h2]
    refine ⟨pr.2, ⟨chain, hchain, List.getElem?_mem h2⟩, ?_⟩
    show pr.2.signature = (chain.getD pr.1 defaultCert).signature
    rw [hget]
  · rintro ⟨c, ⟨chain, hchain, hc⟩, rfl⟩
    obtain ⟨i, hi, hgetc⟩ := List.mem_iff_getElem.mp hc
    refine ⟨(i, chain), ⟨chain, hchain, ⟨(i, c), ?_, rfl⟩⟩, ?_⟩
    · rw [List.mem_enum_iff_getElem?]
      simp [List.getElem?_eq_getElem, hi, hgetc]
    · show (chain.getD i defaultCert).signature = c.signature
      have hg : chain.getD i defaultCert = c := by
        simp [List.getD_eq_getElem?_getD, List.getElem?_eq_getElem, hi, hgetc]
      rw [hg]

/-- Claim C1: for every certificate record, policy and current time, the
expiration check computes the cutoff by calendar-aware addition of the
warning years, months and days to the current time, emits an expiration
finding exactly when that cutoff is strictly after notAfter, and the
finding is ExpiringShortly with the remaining hours when that value is at
most 48 and otherwise ExpiringSoon with the hours divided by 24 (integer
division), the hours being the truncated hour count between the current
time and notAfter. -/
theorem checkCert_expiration_spec (p : Policy) (timeNow initNow : GoTime)
    (host : String) (certNum : Nat) (certs : List Certificate) :
    ((checkCert p timeNow initNow host certNum certs).errs.filter
        Finding.isExpiration)
      = (if goAfter (goAddDate timeNow p.warnYears p.warnMonths p.warnDays)
            (certs.getD certNum defaultCert).notAfter then
          if durationHours
              (goSub (certs.getD certNum defaultCert).notAfter timeNow) ≤ 48 then
            [Finding.expiringShortly (durationHours
              (goSub (certs.getD certNum defaultCert).notAfter timeNow))]
          else
            [Finding.expiringSoon ((durationHours
              (goSub (certs.getD certNum defaultCert).notAfter timeNow)).tdiv 24)]
        else []) :=
  checkCert_expiration_filter p timeNow initNow host certNum certs

/-- Claim C2: the sunset finding is emitted exactly when the signature
check is enabled, the algorithm is in the sunset table, the certificate is
not at the trust-anchor position (certNum different from the chain length
minus one, in Int arithmetic as in the source), and notAfter is on or
after the sunset date of the algorithm. -/
theorem checkCert_sunset_iff (p : Policy) (timeNow initNow : GoTime)
    (host : String) (certNum : Nat) (certs : List Certificate) :
    hasSunsetFinding (checkCert p timeNow initNow host certNum certs).errs = true
      ↔ (p.checkSigAlg = true
          ∧ ∃ alg, sunsetSigAlgs initNow
              (certs.getD certNum defaultCert).signatureAlgorithm = some alg
            ∧ (certNum : Int) ≠ (certs.length : Int) - 1
            ∧ toNanos alg.sunsetsAt ≤ toNanos (certs.getD certNum defaultCert).notAfter) := by
  simp only [checkCert, hasSunsetFinding, List.any_append, Bool.or_eq_true]
  repeat' split
  all_goals simp_all [goEqual, goAfter]
  all_goals omega

/-- Claim C3, counterexample: a peer list holding the same certificate
twice yields two entries, not the single deduplicated entry the claim
asserts. -/
theorem checkUnverfiedHost_duplicate_counterexample :
    (checkUnverfiedHost samplePolicy sampleTime sampleTime "host"
        (.ok [sampleCert, sampleCert])).certs.length = 2
      ∧ ¬ (checkUnverfiedHost samplePolicy sampleTime sampleTime "host"
          (.ok [sampleCert, sampleCert])).certs.length = 1 := by
  constructor
  · rfl
  · decide

/-- Claim C3, amended: the insecure path applies no deduplication at all;
the host result holds one entry per element of the peer list, duplicate
signature bytes included. -/
theorem checkUnverfiedHost_no_dedup (p : Policy) (timeNow initNow : GoTime)
    (host : String) (certs : List Certificate) :
    (checkUnverfiedHost p timeNow initNow host (.ok certs)).certs.length
      = certs.length := by
  simp [checkUnverfiedHost]

/-- Claim C4: the verified-host traversal visits chains in the order
supplied and each chain leaf first, skipping any certificate whose
signature bytes were already seen, so the entries are exactly the image
under checkCert of the first occurrence of every distinct signature, in
traversal order, and the entry count is the number of distinct signature
values in the chain set. -/
theorem checkVerifiedHost_dedup_first_occurrence (p : Policy)
    (timeNow initNow : GoTime) (host : String)
    (chains : List (List Certificate)) :
    (checkVerifiedHost p timeNow initNow host (.ok chains)).certs
      = (dedupScan occurrenceSig (chainOccurrences chains) []).2.map
          (fun o => checkCert p timeNow initNow host o.1 o.2)
      ∧ (checkVerifiedHost p timeNow initNow host (.ok chains)).certs.length
          = distinctSignatureCount chains := by
  have h := checkChainsLoop_eq_dedupScan p timeNow initNow host chains []
  constructor
  · simp only [checkVerifiedHost]
    rw [h]
  · simp only [checkVerifiedHost]
    rw [h]
    simp only [List.length_map]
    rw [show ((dedupScan occurrenceSig (chainOccurrences chains) []).2.length)
        = ((chainOccurrences chains).map occurrenceSig).toFinset.card
      from dedupScan_length_card occurrenceSig (chainOccurrences chains)]
    unfold distinctSignatureCount
    rw [chainOccurrences_keys_toFinset]

/-- Claim C5, counterexample: a configured concurrency of zero is kept as
zero, not replaced by the default, so the resolved worker count is not
positive. -/
theorem resolveConcurrency_zero_counterexample :
    resolveConcurrency 0 = 0 ∧ ¬ 0 < resolveConcurrency 0 := by decide

/-- Claim C5, amended: only a negative configured concurrency falls back
to the default of 8; zero and positive values are kept, so the resolved
worker count is positive exactly for nonzero configured values. -/
theorem resolveConcurrency_amended (c : Int) :
    (c < 0 → resolveConcurrency c = 8)
      ∧ (0 ≤ c → resolveConcurrency c = c)
      ∧ (c ≠ 0 → 0 < resolveConcurrency c) := by
  refine ⟨?_, ?_, ?_⟩ <;> intro h <;>
    simp only [resolveConcurrency, defaultConcurrency] <;> split <;> omega

/-- Claim C6, counterexample: for a certificate expired thirty minutes
before the current time the finding is still emitted, but its reported
value is 0 (truncation toward zero of minus half an hour), which is not
negative, and the floor value -1 the claim describes is not reported. -/
theorem expired_cert_hours_counterexample :
    goAfter sampleTime expiredCert.notAfter = true
      ∧ (checkCert samplePolicy sampleTime sampleTime "host" 0
          [expiredCert]).errs = [Finding.expiringShortly 0]
      ∧ Finding.expiringShortly (-1)
          ∉ (checkCert samplePolicy sampleTime sampleTime "host" 0
              [expiredCert]).errs := by
  refine ⟨by decide, by decide, by decide⟩

/-- Claim C6, amended: an already expired certificate (with the
non-negative warning offsets main guarantees) still produces an
expiration finding, an ExpiringShortly whose value is the hour count
truncated toward zero, a value at most 0 (negative only when the expiry
is at least one full hour past). -/
theorem expired_cert_still_reported (p : Policy) (timeNow initNow : GoTime)
    (host : String) (certNum : Nat) (certs : List Certificate)
    (hexp : goAfter timeNow (certs.getD certNum defaultCert).notAfter = true)
    (hy : 0 ≤ p.warnYears) (hm : 0 ≤ p.warnMonths) (hd : 0 ≤ p.warnDays) :
    ((checkCert p timeNow initNow host certNum certs).errs.filter
        Finding.isExpiration)
        = [Finding.expiringShortly (durationHours
            (goSub (certs.getD certNum defaultCert).notAfter timeNow))]
      ∧ durationHours
          (goSub (certs.getD certNum defaultCert).notAfter timeNow) ≤ 0 := by
  have hlt : toNanos (certs.getD certNum defaultCert).notAfter
      < toNanos timeNow := by
    simpa [goAfter] using hexp
  have hadd := toNanos_addDate_ge timeNow p.warnYears p.warnMonths p.warnDays
    hy hm hd
  have hcut : goAfter (goAddDate timeNow p.warnYears p.warnMonths p.warnDays)
      (certs.getD certNum defaultCert).notAfter = true := by
    simp only [goAfter, decide_eq_true_eq]
    omega
  have hsub : goSub (certs.getD certNum defaultCert).notAfter timeNow ≤ 0 := by
    simp only [goSub, minDuration, maxDuration]
    repeat' split
    all_goals omega
  have hh : durationHours
      (goSub (certs.getD certNum defaultCert).notAfter timeNow) ≤ 0 := by
    have hneg := Int.neg_tdiv
      (goSub (certs.getD certNum defaultCert).notAfter timeNow) hourNanos
    have hnn := Int.tdiv_nonneg
      (a := -(goSub (certs.getD certNum defaultCert).notAfter timeNow))
      (b := hourNanos) (by omega) (by norm_num [hourNanos])
    simp only [durationHours]
    omega
  refine ⟨?_, hh⟩
  rw [checkCert_expiration_filter, if_pos hcut, if_pos (by omega)]

/-- Witness for the amended claim C6 at the concrete expired
certificate. -/
theorem expired_cert_still_reported_witness :
    ((checkCert samplePolicy sampleTime sampleTime "host" 0
        [expiredCert]).errs.filter Finding.isExpiration)
        = [Finding.expiringShortly (durationHours
            (goSub (([expiredCert] : List Certificate).getD 0
              defaultCert).notAfter sampleTime))]
      ∧ durationHours
          (goSub (([expiredCert] : List Certificate).getD 0
            defaultCert).notAfter sampleTime) ≤ 0 :=
  expired_cert_still_reported samplePolicy sampleTime sampleTime "host" 0
    [expiredCert] (by decide) (by decide) (by decide) (by decide)

/-- Claim C7: a line that trims to empty or to a comment yields no
descriptor; a trimmed line starting with the insecure marker followed by a
space yields the insecure mode with the remainder as address; any other
non-empty non-comment trimmed line yields the verified mode with the whole
trimmed line as address. -/
theorem parseTarget_spec (line : List Char) :
    (trimSpace line = [] → parseTarget line = none)
    ∧ ((trimSpace line).headD ' ' = '#' → parseTarget line = none)
    ∧ (∀ rest, trimSpace line = 'i' :: ' ' :: rest →
        parseTarget line = some (VerificationMode.InsecureAccepted, rest))
    ∧ (trimSpace line ≠ [] → (trimSpace line).headD ' ' ≠ '#' →
        (¬ ∃ rest, trimSpace line = 'i' :: ' ' :: rest) →
        parseTarget line = some (VerificationMode.Verified, trimSpace line)) := by
  refine ⟨?_, ?_, ?_, ?_⟩
  · intro h
    simp [parseTarget, parseHostLine, h]
  · intro h
    simp only [parseTarget, parseHostLine]
    rw [if_pos (Or.inr h)]
    rfl
  · intro rest h
    simp [parseTarget, parseHostLine, h, checkHostMode]
  · intro hne hhash hnp
    have hlen : (trimSpace line).length ≠ 0 := by
      simpa [List.length_eq_zero] using hne
    have hmode : checkHostMode (trimSpace line)
        = (VerificationMode.Verified, trimSpace line) := by
      rw [checkHostMode, if_neg]
      intro hc
      apply hnp
      refine ⟨(trimSpace line).drop 2, ?_⟩
      conv_lhs => rw [← List.take_append_drop 2 (trimSpace line)]
      rw [hc.2]
      rfl
    simp only [parseTarget, parseHostLine]
    rw [if_neg (by tauto)]
    simpa using hmode

/-- Claim C8: the outcome of a probe is exactly one of two variants: a
failed dial carries the error and an empty certificate list, a successful
dial carries no error and one entry per examined certificate (every
distinct signature for the verified path, every peer-list element for the
insecure path). -/
theorem hostResult_outcome_exclusive (p : Policy) (timeNow initNow : GoTime)
    (host e : String) (chains : List (List Certificate))
    (pcerts : List Certificate) :
    checkVerifiedHost p timeNow initNow host (.error e)
        = { host := host, err := some e, certs := [] }
      ∧ (checkVerifiedHost p timeNow initNow host (.ok chains)).err = none
      ∧ (checkVerifiedHost p timeNow initNow host (.ok chains)).certs.length
          = distinctSignatureCount chains
      ∧ checkUnverfiedHost p timeNow initNow host (.error e)
          = { host := host, err := some e, certs := [] }
      ∧ (checkUnverfiedHost p timeNow initNow host (.ok pcerts)).err = none
      ∧ (checkUnverfiedHost p timeNow initNow host (.ok pcerts)).certs.length
          = pcerts.length := by
  refine ⟨rfl, rfl, ?_, rfl, rfl, by simp [checkUnverfiedHost]⟩
  have h := checkChainsLoop_eq_dedupScan p timeNow initNow host chains []
  simp only [checkVerifiedHost]
  rw [h]
  simp only [List.length_map]
  rw [dedupScan_length_card occurrenceSig (chainOccurrences chains)]
  unfold distinctSignatureCount
  rw [chainOccurrences_keys_toFinset]

/-- Claim C9: the number of entries of a successful host result equals the
number of certificates examined (the peer-list length, respectively the
number of distinct signatures of the chain set) and is independent of the
policy and of the time, hence of which findings fired; a healthy
certificate still contributes its entry. -/
theorem certEntries_count_invariant (p : Policy) (timeNow initNow : GoTime)
    (host : String) (certs : List Certificate)
    (chains : List (List Certificate)) :
    (checkUnverfiedHost p timeNow initNow host (.ok certs)).certs.length
        = certs.length
      ∧ (checkVerifiedHost p timeNow initNow host (.ok chains)).certs.length
          = distinctSignatureCount chains := by
  constructor
  · simp [checkUnverfiedHost]
  · have h := checkChainsLoop_eq_dedupScan p timeNow initNow host chains []
    simp only [checkVerifiedHost]
    rw [h]
    simp only [List.length_map]
    rw [dedupScan_length_card occurrenceSig (chainOccurrences chains)]
    unfold distinctSignatureCount
    rw [chainOccurrences_keys_toFinset]

/-- Claim C10: in insecure mode the certificate at the last position of
the peer list is the trust-anchor position of checkCert and is therefore
exempt from the signature-algorithm check; the last entry of the host
result is that exempt entry, and a single self-signed certificate never
receives a sunset finding. -/
theorem unverified_last_position_exempt (p : Policy) (timeNow initNow : GoTime)
    (host : String) (certs : List Certificate) (cert : Certificate)
    (hne : certs ≠ []) :
    hasSunsetFinding
        (checkCert p timeNow initNow host (certs.length - 1) certs).errs = false
      ∧ (checkUnverfiedHost p timeNow initNow host (.ok certs)).certs.getLast?
          = some (checkCert p timeNow initNow host (certs.length - 1) certs)
      ∧ hasSunsetFinding
          (checkCert p timeNow initNow host 0 [cert]).errs = false := by
  have hlen : 1 ≤ certs.length := List.length_pos.mpr hne
  refine ⟨?_, ?_, ?_⟩
  · simp only [checkCert, hasSunsetFinding, List.any_append, Bool.or_eq_true]
    repeat' split
    all_goals simp_all
  · obtain ⟨m, hm⟩ : ∃ m, certs.length = m + 1 := ⟨certs.length - 1, by omega⟩
    simp only [checkUnverfiedHost, hm, List.range_succ, List.map_append,
      List.map_cons, List.map_nil, List.getLast?_concat]
    simp [hm]
  · simp only [checkCert, hasSunsetFinding, List.any_append, Bool.or_eq_true]
    repeat' split
    all_goals simp_all

/-- Witness for claim C10 at a singleton peer list holding a SHA1
certificate expiring after the sunset date. -/
theorem unverified_last_position_exempt_witness :
    hasSunsetFinding
        (checkCert samplePolicy sampleTime sampleTime "host"
          (([sampleCertSha1] : List Certificate).length - 1)
          [sampleCertSha1]).errs = false
      ∧ (checkUnverfiedHost samplePolicy sampleTime sampleTime "host"
            (.ok [sampleCertSha1])).certs.getLast?
          = some (checkCert samplePolicy sampleTime sampleTime "host"
              (([sampleCertSha1] : List Certificate).length - 1)
              [sampleCertSha1])
      ∧ hasSunsetFinding
          (checkCert samplePolicy sampleTime sampleTime "host" 0
            [sampleCertSha1]).errs = false :=
  unverified_last_position_exempt samplePolicy sampleTime sampleTime "host"
    [sampleCertSha1] sampleCertSha1 (by decide)
